import Mathlib

/-!
Shallow embedding of the recipe-ripper core (TypeScript) in Lean 4.

Source files embedded here:
  - src/lib/platform.ts        (platform resolution helpers, JSON brace scanner,
                                recipe extractor: clean, uniq, splitSentences,
                                guessTitle, extractIngredientCandidates,
                                extractSteps, extractRecipe)
  - src/app/api/extract/route.ts  (two iterations of the orchestrator POST
                                handler; the pure control flow after request
                                parsing is embedded, with network/subprocess
                                results passed in as explicit values)
  - src/lib/server/transcribe.ts and src/lib/server/transcribeUrl.ts
                                (transcription fallback; the filesystem and the
                                two external subprocesses are modelled as
                                explicit state / input events)

JavaScript strings are modelled as Lean `String` (lists of characters);
`String.prototype.length` is modelled as the character count.  The regular
expressions appearing in the source are hand-compiled to explicit
backtracking scanners that follow JS regex semantics (leftmost match, ordered
alternation, greedy quantifiers with backtracking) for the concrete patterns
the source uses.
-/

set_option maxRecDepth 100000

namespace RecipeRipper

/-- Model of the JS whitespace class used by regex white space and trim:
space, tab, newline, carriage return, vertical tab, form feed, NBSP. -/
def isWs (c : Char) : Bool :=
  c = ' ' || c = '\t' || c = '\n' || c = '\x0d' || c = '\x0b' || c = '\x0c' || c = ' '

/-- Characters counted as word characters by the JS regex class backslash-w
(used for word boundaries): ASCII letters, digits and underscore. -/
def isWordChar (c : Char) : Bool :=
  ('a' ≤ c && c ≤ 'z') || ('A' ≤ c && c ≤ 'Z') || ('0' ≤ c && c ≤ '9') || c = '_'

/-- ASCII letter, either case (the class [a-z] under the i flag). -/
def isAsciiLetter (c : Char) : Bool :=
  ('a' ≤ c && c ≤ 'z') || ('A' ≤ c && c ≤ 'Z')

/-- ASCII digit (the regex class backslash-d). -/
def isDigit (c : Char) : Bool :=
  '0' ≤ c && c ≤ '9'

/-- Lower-case one character (ASCII only, enough for the case-insensitive
regex flags of the source). -/
def lowerChar (c : Char) : Char :=
  if 'A' ≤ c && c ≤ 'Z' then Char.ofNat (c.toNat + 32) else c

/-- Case-insensitive character comparison (the i regex flag). -/
def charCI (a b : Char) : Bool :=
  lowerChar a = lowerChar b

/-- Replace each maximal run of whitespace by a single space: the
`replace(/\s+/g, " ")` part of `clean` in src/lib/platform.ts.  The flag
records whether the scanner is inside a whitespace run (the space is emitted
at the start of the run, the rest of the run is skipped). -/
def collapseWsAux : Bool → List Char → List Char
  | _, [] => []
  | inRun, c :: cs =>
    if isWs c then
      if inRun then collapseWsAux true cs
      else ' ' :: collapseWsAux true cs
    else c :: collapseWsAux false cs

/-- JS `replace(/\s+/g, " ")`. -/
def collapseWs (l : List Char) : List Char :=
  collapseWsAux false l

/-- Drop whitespace from both ends of a character list (JS `String.trim`). -/
def trimChars (l : List Char) : List Char :=
  ((l.dropWhile isWs).reverse.dropWhile isWs).reverse

/-- JS `s.trim()` on a Lean string. -/
def jsTrim (s : String) : String :=
  String.mk (trimChars s.data)

/-- Embeds `clean` of src/lib/platform.ts:
`s.replace(/\s+/g, " ").trim()`. -/
def clean (s : String) : String :=
  String.mk (trimChars (collapseWs s.data))

/-- First-occurrence deduplication with an accumulator of already seen
entries. -/
def dedupFirstAux (seen : List String) : List String → List String
  | [] => []
  | x :: xs =>
    if seen.contains x then dedupFirstAux seen xs
    else x :: dedupFirstAux (x :: seen) xs

/-- First-occurrence deduplication, the order `new Set(...)` iterates in. -/
def dedupFirst (l : List String) : List String :=
  dedupFirstAux [] l

/-- Embeds `uniq` of src/lib/platform.ts:
`Array.from(new Set(arr.map((x) => clean(x)).filter(Boolean)))`. -/
def uniq (arr : List String) : List String :=
  dedupFirst ((arr.map clean).filter (fun s => s ≠ ""))

/-! Backtracking matcher combinators.  A matcher consumes characters from the
front of the input and calls a continuation on the rest; alternatives are
tried in order and quantifiers are greedy, exactly as in a JS backtracking
regex engine.  Every matcher returns the first success, as `some rest`. -/

/-- Greedy star over a one-character class, with backtracking: try the longest
consumption first, then shorter ones, finally none. -/
def starClass (p : Char → Bool) : List Char → (List Char → Option (List Char)) →
    Option (List Char)
  | [], k => k []
  | c :: cs, k =>
    if p c then
      match starClass p cs k with
      | some r => some r
      | none => k (c :: cs)
    else k (c :: cs)

/-- Greedy plus over a one-character class (one mandatory character, then a
greedy star), with backtracking. -/
def plusClass (p : Char → Bool) : List Char → (List Char → Option (List Char)) →
    Option (List Char)
  | [], _ => none
  | c :: cs, k => if p c then starClass p cs k else none

/-- Greedy bounded repetition of a one-character class, at most `n` times,
with backtracking (the regex quantifier of shape between 0 and n). -/
def repAtMost (p : Char → Bool) : Nat → List Char → (List Char → Option (List Char)) →
    Option (List Char)
  | 0, cs, k => k cs
  | _ + 1, [], k => k []
  | n + 1, c :: cs, k =>
    if p c then
      match repAtMost p n cs k with
      | some r => some r
      | none => k (c :: cs)
    else k (c :: cs)

/-- Match one mandatory character of a class. -/
def oneClass (p : Char → Bool) : List Char → (List Char → Option (List Char)) →
    Option (List Char)
  | [], _ => none
  | c :: cs, k => if p c then k cs else none

/-- Match a literal character sequence case-insensitively. -/
def litCI : List Char → List Char → (List Char → Option (List Char)) →
    Option (List Char)
  | [], cs, k => k cs
  | _ :: _, [], _ => none
  | w :: ws, c :: cs, k => if charCI w c then litCI ws cs k else none

/-- Ordered alternation of literal words (a regex group of alternatives),
with the shared continuation. -/
def altLitCI : List (List Char) → List Char → (List Char → Option (List Char)) →
    Option (List Char)
  | [], _, _ => none
  | w :: ws, cs, k =>
    match litCI w cs k with
    | some r => some r
    | none => altLitCI ws cs k

/-- Greedy optional group, with backtracking: try the group first, then skip. -/
def optM (g : List Char → (List Char → Option (List Char)) → Option (List Char)) :
    List Char → (List Char → Option (List Char)) → Option (List Char) :=
  fun cs k =>
    match g cs k with
    | some r => some r
    | none => k cs

/-- Case-insensitive test that `w` occurs at the head of `cs`. -/
def startsWithCI (w : List Char) (cs : List Char) : Bool :=
  (litCI w cs (fun r => some r)).isSome

/-- Word boundary between an optional previous character and an optional next
character (out of range counts as a non-word side). -/
def isBoundary (prev next : Option Char) : Bool :=
  (match prev with | none => false | some c => isWordChar c) ≠
  (match next with | none => false | some c => isWordChar c)

/-- Character list of a string literal. -/
def chars (s : String) : List Char :=
  s.data

/-- Does the word `w` match at the head of `cs`, with a word boundary on both
sides?  `prev` is the character just before this position, if any. -/
def wordHere (w : List Char) (prev : Option Char) (cs : List Char) : Bool :=
  isBoundary prev cs.head? &&
    (litCI w cs (fun rest =>
      if isBoundary w.getLast? rest.head? then some rest else none)).isSome

/-- Does `f` succeed at some position of the text?  `prev` is the character
before the current position. -/
def existsPosWith (f : Option Char → List Char → Bool) :
    Option Char → List Char → Bool
  | _, [] => false
  | prev, c :: rest => f prev (c :: rest) || existsPosWith f (some c) rest

/-- Alternatives of the time and temperature word filter of
`extractIngredientCandidates`, regex `\b(minutes?|seconds?|degrees?|°f|°c)\b`,
with the optional plural expanded. -/
def timeWords : List (List Char) :=
  [chars ("minutes"), chars ("minute"), chars ("seconds"), chars ("second"),
   chars ("degrees"), chars ("degree"), chars ("°f"), chars ("°c")]

/-- Embeds the test `/\b(minutes?|seconds?|degrees?|°f|°c)\b/i.test(h)`. -/
def containsTimeWord (cs : List Char) : Bool :=
  existsPosWith (fun prev l => timeWords.any (fun w => wordHere w prev l)) none cs

/-- Alternatives of the cooking-verb filter of `extractSteps`,
regex `\b(add|mix|stir|...|preheat)\b`. -/
def verbWords : List (List Char) :=
  [chars ("add"), chars ("mix"), chars ("stir"), chars ("whisk"), chars ("cook"),
   chars ("bake"), chars ("fry"), chars ("saute"), chars ("sauté"), chars ("boil"),
   chars ("simmer"), chars ("chop"), chars ("slice"), chars ("mince"),
   chars ("combine"), chars ("blend"), chars ("serve"), chars ("fold"),
   chars ("pour"), chars ("season"), chars ("heat"), chars ("preheat")]

/-- Embeds the step-keeping test of `extractSteps`. -/
def containsActionVerb (cs : List Char) : Bool :=
  existsPosWith (fun prev l => verbWords.any (fun w => wordHere w prev l)) none cs

/-- Embeds `/^(step|steps|method|directions|instructions|notes?)\b/i.test(s)`:
anchored at the start of the line. -/
def startsWithHeaderWord (cs : List Char) : Bool :=
  [chars ("step"), chars ("steps"), chars ("method"), chars ("directions"),
   chars ("instructions"), chars ("notes"), chars ("note")].any
    (fun w => wordHere w none cs)

/-- Embeds `/\bsubscribe|like|follow\b/i.test(s)`.  Note the boundaries bind
only to the outer alternatives in the source regex: "like" may match anywhere
inside a word. -/
def containsPromoWord (cs : List Char) : Bool :=
  existsPosWith
    (fun prev l =>
      (isBoundary prev l.head? && startsWithCI (chars ("subscribe")) l) ||
      startsWithCI (chars ("like")) l ||
      (litCI (chars ("follow")) l (fun rest =>
        if isBoundary (some 'w') rest.head? then some rest else none)).isSome)
    none cs

/-! Sentence segmentation, embedding `splitSentences` of src/lib/platform.ts:
`text.replace(/\n+/g, " ").split(/(?<=[.!?])\s+|(?:\s*[-–•]\s+)/g)`
then `clean` each piece and keep the pieces of length at least 3. -/

/-- Replace each maximal run of newline characters by a single space
(`replace(/\n+/g, " ")`), with a flag recording whether the scanner is
inside a newline run. -/
def collapseNlAux : Bool → List Char → List Char
  | _, [] => []
  | inRun, c :: cs =>
    if c = '\n' then
      if inRun then collapseNlAux true cs
      else ' ' :: collapseNlAux true cs
    else c :: collapseNlAux false cs

/-- JS `replace(/\n+/g, " ")`. -/
def collapseNl (l : List Char) : List Char :=
  collapseNlAux false l

/-- Bullet characters of the sentence separator class. -/
def isBullet (c : Char) : Bool :=
  c = '-' || c = '–' || c = '•'

/-- Try the sentence-separator regex `(?<=[.!?])\s+|(?:\s*[-–•]\s+)` exactly
at the current position; return the rest after the (greedy) separator. -/
def sepHere (prev : Option Char) (cs : List Char) : Option (List Char) :=
  match (if prev = some '.' || prev = some '!' || prev = some '?' then
            plusClass isWs cs (fun r => some r)
          else none) with
  | some r => some r
  | none =>
    starClass isWs cs (fun r1 =>
      oneClass isBullet r1 (fun r2 =>
        plusClass isWs r2 (fun r3 => some r3)))

/-- String split on the sentence-separator regex.  The fuel starts one above
the text length; every step advances at least one character (separators are
never empty), so the fuel never runs out. -/
def splitSepAux : Nat → Option Char → List Char → List Char → List String
  | 0, _, cs, acc => [String.mk (acc.reverse ++ cs)]
  | fuel + 1, prev, cs, acc =>
    match cs with
    | [] => [String.mk acc.reverse]
    | c :: rest =>
      match sepHere prev cs with
      | some after => String.mk acc.reverse :: splitSepAux fuel (some ' ') after []
      | none => splitSepAux fuel (some c) rest (c :: acc)

/-- Embeds `splitSentences` of src/lib/platform.ts. -/
def splitSentences (text : String) : List String :=
  let cs := collapseNl text.data
  ((splitSepAux (cs.length + 1) none cs []).map clean).filter
    (fun s => 3 ≤ s.length)

/-! Title extraction, embedding `guessTitle` of src/lib/platform.ts. -/

/-- Newline-like characters excluded by the regex dot. -/
def isNlCh (c : Char) : Bool :=
  c = '\n' || c = '\x0d' || c = ' ' || c = ' '

/-- Backtracking over the split between `\s*` and the capture `(.+)` of
`/TITLE:\s*(.+)/i`: try the longest whitespace prefix first (`k` down to 0);
the capture is then the maximal run of non-newline characters, nonempty. -/
def titleCapAux : Nat → List Char → Option (List Char)
  | 0, rest =>
    match rest with
    | [] => none
    | c :: _ => if isNlCh c then none
                else some (rest.takeWhile (fun d => !isNlCh d))
  | k + 1, rest =>
    match rest.drop (k + 1) with
    | [] => titleCapAux k rest
    | c :: _ =>
      if isNlCh c then titleCapAux k rest
      else some ((rest.drop (k + 1)).takeWhile (fun d => !isNlCh d))

/-- Leftmost match of `/TITLE:\s*(.+)/i`; returns the captured group. -/
def titleFind : List Char → Option (List Char)
  | [] => none
  | c :: rest =>
    if startsWithCI (chars ("TITLE:")) (c :: rest) then
      match titleCapAux (((c :: rest).drop 6).takeWhile isWs).length
              ((c :: rest).drop 6) with
      | some cap => some cap
      | none => titleFind rest
    else titleFind rest

/-- Embeds `replace(/^SOURCE TEXT:\s*/i, "")`. -/
def stripSourceTextMark (s : String) : String :=
  if startsWithCI (chars ("SOURCE TEXT:")) s.data then
    String.mk ((s.data.drop 12).dropWhile isWs)
  else s

/-- Embeds `guessTitle` of src/lib/platform.ts. -/
def guessTitle (fullText : String) (fallback : String := "Recipe") : String :=
  match titleFind fullText.data with
  | some cap => (clean (String.mk cap)).take 80
  | none =>
    match (splitSentences fullText).head? with
    | some first =>
      stripSourceTextMark (if first.take 80 = "" then fallback else first.take 80)
    | none => stripSourceTextMark fallback

/-! Ingredient candidates, embedding `extractIngredientCandidates` of
src/lib/platform.ts. -/

/-- Try `ingredients?\s*[:\n]+` exactly at the current position; the capture
`([\s\S]{0,3000})` is then the first 3000 characters of the returned rest. -/
def ingredientsSectionAt (cs : List Char) : Option (List Char) :=
  litCI (chars ("ingredient")) cs (fun r1 =>
    optM (fun c k => oneClass (fun ch => charCI ch 's') c k) r1 (fun r2 =>
      starClass isWs r2 (fun r3 =>
        plusClass (fun ch => ch = ':' || ch = '\n') r3 (fun r4 => some r4))))

/-- Leftmost match of `/ingredients?\s*[:\n]+([\s\S]{0,3000})/i`; returns the
rest of the text after the matched header, from which the capture is taken. -/
def sectionFind : List Char → Option (List Char)
  | [] => none
  | c :: rest =>
    match ingredientsSectionAt (c :: rest) with
    | some r => some r
    | none => sectionFind rest

/-- Split on the literal newline character (JS `split("\n")`). -/
def splitOnNl : List Char → List String
  | [] => [""]
  | c :: rest =>
    if c = '\n' then "" :: splitOnNl rest
    else
      match splitOnNl rest with
      | [] => [String.mk [c]]
      | piece :: pieces => String.mk (c :: piece.data) :: pieces

/-- Embeds `likelyIngredientLine` of src/lib/platform.ts. -/
def likelyIngredientLine (s : String) : Bool :=
  !startsWithHeaderWord s.data && !containsPromoWord s.data &&
    s.data.any isAsciiLetter

/-- Unit vocabulary of the quantity pattern, in source order. -/
def unitsWords : List (List Char) :=
  [chars ("tsp"), chars ("tbsp"), chars ("teaspoon"), chars ("tablespoon"),
   chars ("cup"), chars ("cups"), chars ("oz"), chars ("ounce"), chars ("ounces"),
   chars ("lb"), chars ("pound"), chars ("pounds"), chars ("g"), chars ("gram"),
   chars ("grams"), chars ("kg"), chars ("ml"), chars ("l"), chars ("liter"),
   chars ("litre"), chars ("clove"), chars ("cloves"), chars ("pinch"),
   chars ("dash"), chars ("slice"), chars ("slices")]

/-- The quantity sub-pattern `(?:\d+(?:\.\d+)?|\d+\/\d+)`, with ordered
alternation and backtracking through the continuation. -/
def qtyM (cs : List Char) (k : List Char → Option (List Char)) :
    Option (List Char) :=
  match plusClass isDigit cs (fun r1 =>
          optM (fun c k2 =>
            oneClass (fun ch => ch = '.') c (fun r2 => plusClass isDigit r2 k2))
            r1 k) with
  | some r => some r
  | none =>
    plusClass isDigit cs (fun r1 =>
      oneClass (fun ch => ch = '/') r1 (fun r2 => plusClass isDigit r2 k))

/-- The quantity pattern of `extractIngredientCandidates` tried at the current
position (the leading word boundary is checked by the caller):
`qty \s* (?:-\s*qty\s*)? (?:\s*(?:x|×)\s*qty\s*)? (?:\s*units)? \s+ [a-z]
[^.!?\n]{0,60}` with the gi flags; returns the rest after the match. -/
def ingredientPatternAt (cs : List Char) : Option (List Char) :=
  qtyM cs (fun r1 =>
    starClass isWs r1 (fun r2 =>
      optM (fun c k =>
          oneClass (fun ch => ch = '-') c (fun ra =>
            starClass isWs ra (fun rb =>
              qtyM rb (fun rc => starClass isWs rc k)))) r2 (fun r3 =>
        optM (fun c k =>
            starClass isWs c (fun ra =>
              altLitCI [chars ("x"), chars ("×")] ra (fun rb =>
                starClass isWs rb (fun rc =>
                  qtyM rc (fun rd => starClass isWs rd k))))) r3 (fun r4 =>
          optM (fun c k => starClass isWs c (fun ra => altLitCI unitsWords ra k))
            r4 (fun r5 =>
            plusClass isWs r5 (fun r6 =>
              oneClass isAsciiLetter r6 (fun r7 =>
                repAtMost (fun ch => !(ch = '.' || ch = '!' || ch = '?' || ch = '\n'))
                  60 r7 (fun r8 => some r8))))))))

/-- All matches of the quantity pattern, in order (`text.match(pattern)` with
the g flag): scan left to right, record each leftmost match, resume after it.
The fuel starts one above the text length; every step advances at least one
character (the pattern never matches the empty string), so it never runs
out. -/
def scanMatches : Nat → Option Char → List Char → List (List Char)
  | 0, _, _ => []
  | fuel + 1, prev, cs =>
    match cs with
    | [] => []
    | c :: rest =>
      match (if isBoundary prev (some c) then ingredientPatternAt (c :: rest)
              else none) with
      | some r8 =>
        let n := (c :: rest).length - r8.length
        if n = 0 then scanMatches fuel (some c) rest
        else ((c :: rest).take n) ::
          scanMatches fuel ((c :: rest).take n).getLast? r8
      | none => scanMatches fuel (some c) rest

/-- The matches of the quantity pattern over the text
(`text.match(pattern) || []` of `extractIngredientCandidates`). -/
def patternHits (text : String) : List String :=
  (scanMatches (text.data.length + 1) none text.data).map String.mk

/-- The pattern hits surviving the time and temperature word filter
(`hits.filter((h) => !/\b(minutes?|seconds?|degrees?|°f|°c)\b/i.test(h))`). -/
def filteredHits (text : String) : List String :=
  (patternHits text).filter (fun h => !containsTimeWord h.data)

/-- The section-strategy lines of `extractIngredientCandidates`. -/
def fromSection (text : String) : List String :=
  let ingredientsSection : List Char :=
    match sectionFind text.data with
    | some rest => rest.take 3000
    | none => []
  let sectionLines :=
    ((splitOnNl ingredientsSection).map jsTrim).filter
      (fun s => s ≠ "" && s.length < 120)
  (sectionLines.filter likelyIngredientLine).take 40

/-- Embeds `extractIngredientCandidates` of src/lib/platform.ts. -/
def extractIngredientCandidates (text : String) : List String :=
  (uniq (fromSection text ++ filteredHits text)).take 40

/-! Steps, embedding `extractSteps` of src/lib/platform.ts. -/

/-- The deduplicated step list before ordinal prefixing: sentences containing
a cooking verb (all sentences when none does), capped at 18, then `uniq`. -/
def rawSteps (text : String) : List String :=
  let sentences := splitSentences text
  let keep := sentences.filter (fun s => containsActionVerb s.data)
  uniq ((if keep = [] then sentences else keep).take 18)

/-- The `.map((s, i) => \x7b i + 1 \x7d. ...` numbering of `extractSteps`:
prefix each entry with its 1-based ordinal and a period. -/
def numberSteps : Nat → List String → List String
  | _, [] => []
  | n, s :: rest => (Nat.repr n ++ ". " ++ s) :: numberSteps (n + 1) rest

/-- Embeds `extractSteps` of src/lib/platform.ts. -/
def extractSteps (text : String) : List String :=
  numberSteps 1 (rawSteps text)

/-! The recipe record and `extractRecipe` of src/lib/platform.ts.
`maybeUseLLM` always returns null in the source and is dropped here. -/

structure Recipe where
  title : String
  ingredients : List String
  steps : List String
  notes : Option (List String)
  sourceUrl : Option String
deriving DecidableEq

/-- Embeds `extractRecipe` of src/lib/platform.ts.  The `opts` object is
passed as two optional fields. -/
def extractRecipe (fullText : String) (sourceUrl sourceTitle : Option String) :
    Recipe :=
  let title :=
    match sourceTitle with
    | some t => if t = "" then guessTitle fullText else t
    | none => guessTitle fullText
  let ingredients := extractIngredientCandidates fullText
  let steps := extractSteps fullText
  let notes :=
    (if ingredients = [] then
      [("No clear ingredient list found — consider pasting captions/transcript." : String)]
     else []) ++
    (if steps = [] then
      [("No clear steps found — consider pasting captions/transcript." : String)]
     else [])
  { title := title, ingredients := ingredients, steps := steps,
    notes := if notes = [] then none else some notes, sourceUrl := sourceUrl }

/-! The brace-matching JSON extractor, embedding `extractJsonObject` of
src/lib/platform.ts.  The final `JSON.parse` call of the source is a
standard-library black box applied to the matched slice; the embedding
returns the slice itself. -/

/-- Case-sensitive prefix test (JS `indexOf` is case-sensitive). -/
def startsWithCS : List Char → List Char → Bool
  | [], _ => true
  | _ :: _, [] => false
  | w :: ws, c :: cs => w = c && startsWithCS ws cs

/-- Case-sensitive substring test (used to state absence of a fragment from
extractor output). -/
def containsSub (w : List Char) : List Char → Bool
  | [] => startsWithCS w []
  | c :: rest => startsWithCS w (c :: rest) || containsSub w rest

/-- The suffix of the text starting at the first occurrence of `marker`
(JS `indexOf`), or none. -/
def suffixFromMarker (marker : List Char) : List Char → Option (List Char)
  | [] => if marker = [] then some [] else none
  | c :: rest =>
    if startsWithCS marker (c :: rest) then some (c :: rest)
    else suffixFromMarker marker rest

/-- The character-scanning loop of `extractJsonObject`: depth counter,
in-string flag and escape flag; returns the consumed slice (inclusive of the
closing brace) when the depth returns to zero. -/
def braceLoop : List Char → Nat → Bool → Bool → List Char → Option (List Char)
  | [], _, _, _, _ => none
  | c :: rest, depth, inStr, esc, acc =>
    if inStr then
      if esc then braceLoop rest depth inStr false (c :: acc)
      else if c = '\\' then braceLoop rest depth inStr true (c :: acc)
      else if c = '"' then braceLoop rest depth false esc (c :: acc)
      else braceLoop rest depth inStr esc (c :: acc)
    else
      if c = '"' then braceLoop rest depth true esc (c :: acc)
      else if c = '{' then braceLoop rest (depth + 1) inStr esc (c :: acc)
      else if c = '}' then
        if depth = 1 then some (c :: acc).reverse
        else braceLoop rest (depth - 1) inStr esc (c :: acc)
      else braceLoop rest depth inStr esc (c :: acc)

/-- Embeds `extractJsonObject` of src/lib/platform.ts up to the final
`JSON.parse`: the brace-matched slice `jsonText` handed to the parser. -/
def extractJsonObject (html marker : String) : Option String :=
  match suffixFromMarker marker.data html.data with
  | none => none
  | some suff =>
    match suff.dropWhile (fun c => c ≠ '{') with
    | [] => none
    | l => (braceLoop l 0 false false []).map String.mk

/-! The orchestrator of src/app/api/extract/route.ts.  The file contains two
iterations of the handler; both are embedded (`POST1` for the first, `POST2`
for the second).  Request parsing, the platform fetch and the transcription
call are external effects: their results enter as explicit values, and the
embedding covers the control flow from the transcription decision onward.
The trace is modelled as the ordered list of step names pushed. -/

inductive Platform where
  | youtube
  | tiktok
  | unknown
deriving DecidableEq

/-- The `SourceText` record of src/lib/platform.ts; optional fields are
`Option`, with `none` for the absent (undefined) case. -/
structure SourceText where
  platform : Platform
  title : Option String := none
  author : Option String := none
  text : Option String := none
deriving DecidableEq

/-- Result of `transcribeUrl` of src/lib/server/transcribe.ts. -/
structure TranscribeResult where
  language : Option String := none
  text : String
deriving DecidableEq

/-- The first iteration's minimum-text constant (line 16 of the first handler):
`const MIN_TEXT = 250`. -/
def MIN_TEXT : Nat := 250

/-- The second iteration's minimum-text constant: `const minChars = 40`. -/
def minChars : Nat := 40

/-- The transcription trigger of the first handler:
`!source.text || source.text.trim().length < MIN_TEXT`. -/
def triggered1 (source : SourceText) : Bool :=
  match source.text with
  | none => true
  | some t => t = "" || (jsTrim t).length < MIN_TEXT

/-- JS `Array.join("\n\n")`. -/
def joinBlankSep : List String → String
  | [] => ""
  | [x] => x
  | x :: y :: rest => x ++ "\n\n" ++ joinBlankSep (y :: rest)

/-- A JS conditional part of the combined corpus:
`field ? prefixText + field : ""` (the empty and absent field are falsy). -/
def optPart (pre : String) (o : Option String) : String :=
  match o with
  | some t => if t = "" then "" else pre ++ t
  | none => ""

/-- The combined corpus built by both handlers:
the non-empty parts among TITLE, AUTHOR, SOURCE TEXT and PASTED TEXT joined
with blank lines (`[...].filter(Boolean).join("\n\n")`). -/
def combineText (source : SourceText) (pastedText : String) : String :=
  joinBlankSep
    (([optPart ("TITLE: ") source.title,
       optPart ("AUTHOR: ") source.author,
       optPart ("SOURCE TEXT:\n") source.text,
       (if jsTrim pastedText = "" then ""
        else "PASTED TEXT:\n" ++ jsTrim pastedText)]).filter
      (fun s => s ≠ ""))

/-- Modelled from the spec: one labeled block, present only when its field
is non-empty. -/
def optPartList (pre : String) (o : Option String) : List String :=
  match o with
  | some t => if t = "" then [] else [pre ++ t]
  | none => []

/-- Modelled from the spec (for the refinement comparison of the text
combiner): the list of rendered parts, keeping "only the non-empty among:
TITLE, AUTHOR, SOURCE TEXT, PASTED TEXT — in that fixed order", each part
omitted entirely when its field is empty. -/
def combineSpecParts (source : SourceText) (pastedText : String) :
    List String :=
  optPartList ("TITLE: ") source.title ++
  optPartList ("AUTHOR: ") source.author ++
  optPartList ("SOURCE TEXT:\n") source.text ++
  (if jsTrim pastedText = "" then []
   else ["PASTED TEXT:\n" ++ jsTrim pastedText])

/-- Modelled from the spec: the parts concatenated with blank-line
separators; the empty string when every part is empty. -/
def combineSpec (source : SourceText) (pastedText : String) : String :=
  joinBlankSep (combineSpecParts source pastedText)

/-- Whisper-fallback stage of the first handler: given the result of
`await transcribeUrl(...)` (an exception or a result), returns the possibly
updated source, the usedWhisper flag, the whisperError field and the pushed
step names. -/
def whisperStage1 (source : SourceText) (tr : Except String TranscribeResult) :
    SourceText × Bool × Option String × List String :=
  if triggered1 source then
    match tr with
    | .ok r =>
      if jsTrim r.text ≠ "" then
        ({ source with text := some r.text }, true, none,
         ["transcribe.start", "transcribe.done"])
      else
        (source, false, some "Transcribe returned empty text.",
         ["transcribe.start", "transcribe.empty"])
    | .error e =>
      (source, false, some e, ["transcribe.start", "transcribe.exception"])
  else
    (source, false, none, ["transcribe.skip"])

/-- Outcome of a handler run: the JSON response value, reduced to the fields
the claims are about. -/
inductive Outcome where
  | failure (error step : String) (usedWhisper : Bool)
      (whisperError : Option String) (trace : List String)
  | success (recipe : Recipe) (sourceUsed : SourceText) (usedWhisper : Bool)
      (whisperError : Option String) (trace : List String)
deriving DecidableEq

/-- The insufficient-text error message of the first handler. -/
def insufficientMsg1 : String :=
  "Couldn’t get enough transcript text (YouTube transcript empty + Whisper failed). Try a different video, or paste captions."

/-- The insufficient-text error message of the second handler. -/
def insufficientMsg2 : String :=
  "Not enough text to extract a recipe. Try pasting captions/transcript into the textbox."

/-- The combining and gating tail shared by the first handler's paths: build
the corpus, fail when its trimmed length is below `MIN_TEXT`, else extract. -/
def afterCombine1 (source : SourceText) (pastedText url : String)
    (usedWhisper : Bool) (whisperError : Option String) (trace : List String) :
    Outcome :=
  let combinedText := combineText source pastedText
  if (jsTrim combinedText).length < MIN_TEXT then
    .failure insufficientMsg1
      "combine.not_enough_text" usedWhisper whisperError
      (trace ++ ["combine.start", "combine.done"])
  else
    .success (extractRecipe combinedText (some url) source.title) source
      usedWhisper whisperError
      (trace ++ ["combine.start", "combine.done",
                 "recipe.extract.start", "recipe.extract.done"])

/-- The first iteration of the POST handler (src/app/api/extract/route.ts),
from the transcription decision onward.  `tr` is the outcome of the
`transcribeUrl` call (only consulted when the trigger fires). -/
def POST1 (source : SourceText) (pastedText : String)
    (tr : Except String TranscribeResult) (url : String) : Outcome :=
  let s := whisperStage1 source tr
  afterCombine1 s.1 pastedText url s.2.1 s.2.2.1
    (["extract.start", "source.fetch.start", "source.fetch.done"] ++ s.2.2.2)

/-! Second iteration of the handler.  Its whisper fallback goes through an
HTTP call to /api/transcribe; the fetch outcome enters as an explicit
value. -/

/-- Parsed body of the /api/transcribe response as the handler reads it;
`text` is `some t` exactly when the JSON `text` field is a string. -/
structure TrBody where
  ok : Bool
  text : Option String := none
  error : Option String := none
deriving DecidableEq

/-- Result of `JSON.parse` on the response body: a throw (invalid), or a
value (`none` models the `null` produced for an empty body). -/
inductive TrBodyParse where
  | invalid (raw : String)
  | parsed (tr : Option TrBody)
deriving DecidableEq

/-- Outcome of `fetch(origin + "/api/transcribe")`: a network throw, or a
response with its ok flag, status and body. -/
inductive TrFetch where
  | netError (msg : String)
  | resp (ok : Bool) (status : Nat) (body : TrBodyParse)
deriving DecidableEq

/-- The transcription trigger of the second handler:
`(source?.text ?? "").trim().length < minChars`. -/
def triggered2 (source : SourceText) : Bool :=
  (jsTrim (source.text.getD "")).length < minChars

/-- Whisper-fallback stage of the second handler: possibly updated source,
usedWhisper flag, whisperError field, pushed step names. -/
def whisperStage2 (source : SourceText) (f : TrFetch) :
    SourceText × Bool × Option String × List String :=
  if triggered2 source then
    match f with
    | .netError e =>
      (source, false, some e, ["transcribe.fallback", "transcribe.exception"])
    | .resp ok status body =>
      match body with
      | .invalid raw =>
        (source, false,
         some ("Transcribe returned invalid JSON: " ++ raw.take 200),
         ["transcribe.fallback", "transcribe.fetch.done", "transcribe.exception"])
      | .parsed tr? =>
        if !ok then
          (source, false,
           some (match tr? with
             | some b =>
               match b.error with
               | some e =>
                 if e = "" then "Transcribe failed with HTTP " ++ Nat.repr status
                 else e
               | none => "Transcribe failed with HTTP " ++ Nat.repr status
             | none => "Transcribe failed with HTTP " ++ Nat.repr status),
           ["transcribe.fallback", "transcribe.fetch.done", "transcribe.error"])
        else
          match tr? with
          | some b =>
            match b.text with
            | some t =>
              if b.ok && jsTrim t ≠ "" then
                ({ source with text := some t }, true, none,
                 ["transcribe.fallback", "transcribe.fetch.done",
                  "transcribe.success"])
              else
                (source, false, some "Transcribe returned no text.",
                 ["transcribe.fallback", "transcribe.fetch.done",
                  "transcribe.empty"])
            | none =>
              (source, false, some "Transcribe returned no text.",
               ["transcribe.fallback", "transcribe.fetch.done",
                "transcribe.empty"])
          | none =>
            (source, false, some "Transcribe returned no text.",
             ["transcribe.fallback", "transcribe.fetch.done", "transcribe.empty"])
  else
    (source, false, none, ["transcribe.skip"])

/-- The combining and gating tail of the second handler, threshold
`minChars`. -/
def afterCombine2 (source : SourceText) (pastedText url : String)
    (usedWhisper : Bool) (whisperError : Option String) (trace : List String) :
    Outcome :=
  let combinedText := combineText source pastedText
  if (jsTrim combinedText).length < minChars then
    .failure insufficientMsg2
      "reject.notEnoughText" usedWhisper whisperError
      (trace ++ ["combine.text", "combine.text.done", "reject.notEnoughText"])
  else
    .success (extractRecipe combinedText (some url) source.title) source
      usedWhisper whisperError
      (trace ++ ["combine.text", "combine.text.done", "extractRecipe",
                 "extractRecipe.done", "done"])

/-- The second iteration of the POST handler, from the transcription decision
onward. -/
def POST2 (source : SourceText) (pastedText : String) (f : TrFetch)
    (url : String) : Outcome :=
  let s := whisperStage2 source f
  afterCombine2 s.1 pastedText url s.2.1 s.2.2.1
    (["parse.body", "validate.body", "env", "fetchSourceText",
      "fetchSourceText.done"] ++ s.2.2.2)

/-! The transcription fallback, embedding `transcribeUrl` of
src/lib/server/transcribe.ts and of src/lib/server/transcribeUrl.ts.  The two
subprocess invocations are external: their combined outcome enters as one
event.  The second component of the result records whether the temporary
working directory created by `mkdtemp` still exists when the call returns or
throws: every branch passes through the `finally` clause, whose best-effort
`rm` is modelled as succeeding (our external-tool contract). -/

inductive ExtCall where
  | spawnError (msg : String)
  | dlFail (code : Nat) (stderr : String)
  | whisperFail (code : Nat) (stderr : String)
  | whisperBadJson (out : String)
  | whisperOk (language : Option String) (text : Option String)
deriving DecidableEq

/-- Embeds `transcribeUrl` of src/lib/server/transcribe.ts.  `cmdDl` and
`cmdWhisper` stand for the configured binary names interpolated into the
error messages. -/
def transcribeUrlRun (cmdDl cmdWhisper : String) (ext : ExtCall) :
    Except String TranscribeResult × Bool :=
  match ext with
  | .spawnError msg => (.error msg, false)
  | .dlFail code stderr =>
    (.error (cmdDl ++ " failed (" ++ Nat.repr code ++ "). " ++ stderr.take 800),
     false)
  | .whisperFail code stderr =>
    (.error (cmdWhisper ++ " failed (" ++ Nat.repr code ++ "). " ++ stderr.take 800),
     false)
  | .whisperBadJson out =>
    (.error ("Failed to parse JSON from " ++ cmdWhisper ++ ". Output: " ++ out.take 500),
     false)
  | .whisperOk language text =>
    (.ok { language := language, text := text.getD "" }, false)

/-- Embeds `transcribeUrl` of src/lib/server/transcribeUrl.ts (the earlier
iteration; same protocol, slightly different messages, `language` defaulted
to null). -/
def transcribeUrlRunV2 (cmdDl cmdWhisper : String) (ext : ExtCall) :
    Except String TranscribeResult × Bool :=
  match ext with
  | .spawnError msg => (.error msg, false)
  | .dlFail code stderr =>
    (.error (cmdDl ++ " failed (" ++ Nat.repr code ++ "): " ++ stderr), false)
  | .whisperFail code stderr =>
    (.error (cmdWhisper ++ " failed (" ++ Nat.repr code ++ "): " ++ stderr), false)
  | .whisperBadJson out =>
    (.error ("Failed to parse JSON from " ++ cmdWhisper ++ ": " ++ out.take 300),
     false)
  | .whisperOk language text =>
    (.ok { language := language, text := text.getD "" }, false)

/-- Is the outcome the ok:false failure response. -/
def Outcome.failed : Outcome → Bool
  | .failure _ _ _ _ _ => true
  | .success _ _ _ _ _ => false

/-- Concrete test source whose native text is `n` copies of the letter a
(so the combined corpus is "SOURCE TEXT:\n" followed by them, 13 + n
characters, with no surrounding whitespace). -/
def srcLen (n : Nat) : SourceText :=
  { platform := .unknown, text := some (String.mk (List.replicate n 'a')) }

/-- The end-to-end example corpus of the spec (and of claim C7). -/
def exampleCorpus : String :=
  "TITLE: Garlic Butter Shrimp\n\nSOURCE TEXT:\nAdd 2 tbsp butter to a hot pan. Add 1 lb shrimp and cook for 3 minutes. Season with salt."

/-- The non-fatality property of a transcription outcome in the first
handler: the resolved source is kept unchanged, usedWhisper stays false, an
informational error field is recorded, and the handler proceeds to the
combining stage on the original source. -/
def transcriptionNonfatal1 (source : SourceText) (pastedText url : String)
    (tr : Except String TranscribeResult) : Prop :=
  (whisperStage1 source tr).1 = source ∧
  (whisperStage1 source tr).2.1 = false ∧
  ((whisperStage1 source tr).2.2.1).isSome = true ∧
  POST1 source pastedText tr url =
    afterCombine1 source pastedText url false ((whisperStage1 source tr).2.2.1)
      (["extract.start", "source.fetch.start", "source.fetch.done"] ++
        (whisperStage1 source tr).2.2.2)

/-- The non-fatality property of a transcription outcome in the second
handler. -/
def transcriptionNonfatal2 (source : SourceText) (pastedText url : String)
    (f : TrFetch) : Prop :=
  (whisperStage2 source f).1 = source ∧
  (whisperStage2 source f).2.1 = false ∧
  ((whisperStage2 source f).2.2.1).isSome = true ∧
  POST2 source pastedText f url =
    afterCombine2 source pastedText url false ((whisperStage2 source f).2.2.1)
      (["parse.body", "validate.body", "env", "fetchSourceText",
        "fetchSourceText.done"] ++ (whisperStage2 source f).2.2.2)

/-! Theorems about the embedded program. -/

/-- C5: the brace-matching JSON extractor, on HTML containing a marker
followed by a JSON object whose string values contain braces, hands exactly
that object's text to the JSON parser: with unrelated braces after it, the
returned slice is the full object, neither shorter nor longer, because braces
inside quoted strings do not affect the depth count. -/
theorem C5_brace_matching_extracts_exact_object :
    extractJsonObject
      ("<html>stuff marker\x7b\"a\":\"b\x7bc\x7d\",\"d\":1\x7d tail \x7d \x7b\x7d")
      ("marker") =
      some ("\x7b\"a\":\"b\x7bc\x7d\",\"d\":1\x7d") := by
  decide

theorem length_zero_iff_empty (s : String) : s.length = 0 ↔ s = "" := by
  constructor
  · intro h
    cases s with
    | mk data =>
      cases data with
      | nil => rfl
      | cons c cs => simp [String.length] at h
  · intro h
    subst h
    rfl

theorem append_ne_empty_left (s t : String) (h : s ≠ "") : s ++ t ≠ "" := by
  intro he
  have hl := congrArg String.length he
  rw [String.length_append] at hl
  have h0 : String.length "" = 0 := rfl
  rw [h0] at hl
  have hs : s.length = 0 := by omega
  exact h ((length_zero_iff_empty s).mp hs)

theorem joinBlankSep_ne_empty (x : String) (xs : List String) (h : x ≠ "") :
    joinBlankSep (x :: xs) ≠ "" := by
  cases xs with
  | nil => exact h
  | cons y rest => exact append_ne_empty_left _ _ (append_ne_empty_left x _ h)

theorem joinBlankSep_empty_iff (l : List String) (h : ∀ x ∈ l, x ≠ "") :
    (joinBlankSep l = "") ↔ l = [] := by
  cases l with
  | nil => simp [joinBlankSep]
  | cons x xs =>
    simp only [iff_false, ne_eq, reduceCtorEq]
    exact fun he => joinBlankSep_ne_empty x xs (h x (List.mem_cons_self x xs)) he

theorem filter_ne_four (a b c d : String) :
    ([a, b, c, d].filter (fun s => s ≠ "")) =
      (if a = "" then [] else [a]) ++ (if b = "" then [] else [b]) ++
      (if c = "" then [] else [c]) ++ (if d = "" then [] else [d]) := by
  by_cases ha : a = "" <;> by_cases hb : b = "" <;> by_cases hc : c = "" <;>
    by_cases hd : d = "" <;> simp [ha, hb, hc, hd]

theorem optPart_singleton (pre : String) (hpre : pre ≠ "") (o : Option String) :
    (if optPart pre o = "" then [] else [optPart pre o]) = optPartList pre o := by
  cases o with
  | none => simp [optPart, optPartList]
  | some t =>
    by_cases h : t = "" <;>
      simp [optPart, optPartList, h, append_ne_empty_left pre t hpre]

theorem combineText_eq_join_parts (source : SourceText) (pastedText : String) :
    combineText source pastedText =
      joinBlankSep (combineSpecParts source pastedText) := by
  rw [combineText, filter_ne_four, combineSpecParts]
  rw [optPart_singleton _ (by decide) source.title,
      optPart_singleton _ (by decide) source.author,
      optPart_singleton _ (by decide) source.text]
  by_cases hp : jsTrim pastedText = "" <;>
    simp [hp, append_ne_empty_left ("PASTED TEXT:\n") (jsTrim pastedText) (by decide)]

theorem optPartList_mem_ne (pre : String) (hpre : pre ≠ "") (o : Option String) :
    ∀ x ∈ optPartList pre o, x ≠ "" := by
  intro x hx
  cases o with
  | none => simp [optPartList] at hx
  | some t =>
    by_cases h : t = ""
    · simp [optPartList, h] at hx
    · simp only [optPartList, h, if_neg, List.mem_singleton] at hx
      simp only [h, if_false, List.mem_singleton] at hx
      subst hx
      exact append_ne_empty_left _ _ hpre

theorem combineSpecParts_mem_ne (source : SourceText) (pastedText : String) :
    ∀ x ∈ combineSpecParts source pastedText, x ≠ "" := by
  intro x hx
  rw [combineSpecParts] at hx
  simp only [List.mem_append] at hx
  rcases hx with ((hx | hx) | hx) | hx
  · exact optPartList_mem_ne _ (by decide) _ x hx
  · exact optPartList_mem_ne _ (by decide) _ x hx
  · exact optPartList_mem_ne _ (by decide) _ x hx
  · by_cases h : jsTrim pastedText = ""
    · simp [h] at hx
    · simp only [h, if_false, List.mem_singleton] at hx
      subst hx
      exact append_ne_empty_left _ _ (by decide)

/-- C6: the text combiner is deterministic and order-stable: it equals the
spec-side combiner that concatenates, with blank-line separators, exactly the
non-empty parts among TITLE, AUTHOR, SOURCE TEXT and PASTED TEXT in that
fixed order, omitting empty parts entirely; and it returns the empty string
exactly when every part is empty. -/
theorem C6_combiner_order_stable (source : SourceText) (pastedText : String) :
    combineText source pastedText = combineSpec source pastedText ∧
    ((combineText source pastedText = "") ↔
      combineSpecParts source pastedText = []) := by
  constructor
  · exact combineText_eq_join_parts source pastedText
  · rw [combineText_eq_join_parts source pastedText]
    exact joinBlankSep_empty_iff _ (combineSpecParts_mem_ne source pastedText)

/-- C2: in both handler iterations, when the trimmed combined corpus is
strictly below the acceptance threshold the orchestrator returns the normal
insufficient-text failure outcome carrying the accumulated step trace, and
when it is at or above the threshold it proceeds to recipe extraction and
succeeds.  In particular a corpus one character below the threshold fails and
one exactly at the threshold proceeds (see the witness). -/
theorem C2_acceptance_gate (source : SourceText) (pastedText : String)
    (tr : Except String TranscribeResult) (f : TrFetch) (url : String) :
    ((jsTrim (combineText (whisperStage1 source tr).1 pastedText)).length <
        MIN_TEXT →
      POST1 source pastedText tr url =
        .failure insufficientMsg1 "combine.not_enough_text"
          (whisperStage1 source tr).2.1 (whisperStage1 source tr).2.2.1
          (["extract.start", "source.fetch.start", "source.fetch.done"] ++
            (whisperStage1 source tr).2.2.2 ++
            ["combine.start", "combine.done"])) ∧
    (MIN_TEXT ≤
        (jsTrim (combineText (whisperStage1 source tr).1 pastedText)).length →
      POST1 source pastedText tr url =
        .success
          (extractRecipe (combineText (whisperStage1 source tr).1 pastedText)
            (some url) (whisperStage1 source tr).1.title)
          (whisperStage1 source tr).1 (whisperStage1 source tr).2.1
          (whisperStage1 source tr).2.2.1
          (["extract.start", "source.fetch.start", "source.fetch.done"] ++
            (whisperStage1 source tr).2.2.2 ++
            ["combine.start", "combine.done", "recipe.extract.start",
             "recipe.extract.done"])) ∧
    ((jsTrim (combineText (whisperStage2 source f).1 pastedText)).length <
        minChars →
      POST2 source pastedText f url =
        .failure insufficientMsg2 "reject.notEnoughText"
          (whisperStage2 source f).2.1 (whisperStage2 source f).2.2.1
          (["parse.body", "validate.body", "env", "fetchSourceText",
            "fetchSourceText.done"] ++ (whisperStage2 source f).2.2.2 ++
            ["combine.text", "combine.text.done", "reject.notEnoughText"])) ∧
    (minChars ≤
        (jsTrim (combineText (whisperStage2 source f).1 pastedText)).length →
      POST2 source pastedText f url =
        .success
          (extractRecipe (combineText (whisperStage2 source f).1 pastedText)
            (some url) (whisperStage2 source f).1.title)
          (whisperStage2 source f).1 (whisperStage2 source f).2.1
          (whisperStage2 source f).2.2.1
          (["parse.body", "validate.body", "env", "fetchSourceText",
            "fetchSourceText.done"] ++ (whisperStage2 source f).2.2.2 ++
            ["combine.text", "combine.text.done", "extractRecipe",
             "extractRecipe.done", "done"])) := by
  refine ⟨fun h => ?_, fun h => ?_, fun h => ?_, fun h => ?_⟩
  · simp [POST1, afterCombine1, h]
  · simp [POST1, afterCombine1, Nat.not_lt.mpr h]
  · simp [POST2, afterCombine2, h]
  · simp [POST2, afterCombine2, Nat.not_lt.mpr h]

theorem C2_acceptance_gate_witness :
    ((jsTrim (combineText
        (whisperStage1 (srcLen 236) (.error "boom")).1 "")).length < MIN_TEXT ∧
      POST1 (srcLen 236) "" (.error "boom") "u" =
        .failure insufficientMsg1 "combine.not_enough_text"
          (whisperStage1 (srcLen 236) (.error "boom")).2.1
          (whisperStage1 (srcLen 236) (.error "boom")).2.2.1
          (["extract.start", "source.fetch.start", "source.fetch.done"] ++
            (whisperStage1 (srcLen 236) (.error "boom")).2.2.2 ++
            ["combine.start", "combine.done"])) ∧
    (MIN_TEXT ≤ (jsTrim (combineText
        (whisperStage1 (srcLen 237) (.error "boom")).1 "")).length ∧
      POST1 (srcLen 237) "" (.error "boom") "u" =
        .success
          (extractRecipe
            (combineText (whisperStage1 (srcLen 237) (.error "boom")).1 "")
            (some "u") (whisperStage1 (srcLen 237) (.error "boom")).1.title)
          (whisperStage1 (srcLen 237) (.error "boom")).1
          (whisperStage1 (srcLen 237) (.error "boom")).2.1
          (whisperStage1 (srcLen 237) (.error "boom")).2.2.1
          (["extract.start", "source.fetch.start", "source.fetch.done"] ++
            (whisperStage1 (srcLen 237) (.error "boom")).2.2.2 ++
            ["combine.start", "combine.done", "recipe.extract.start",
             "recipe.extract.done"])) ∧
    ((jsTrim (combineText
        (whisperStage2 (srcLen 26) (.netError "x")).1 "")).length < minChars ∧
      POST2 (srcLen 26) "" (.netError "x") "u" =
        .failure insufficientMsg2 "reject.notEnoughText"
          (whisperStage2 (srcLen 26) (.netError "x")).2.1
          (whisperStage2 (srcLen 26) (.netError "x")).2.2.1
          (["parse.body", "validate.body", "env", "fetchSourceText",
            "fetchSourceText.done"] ++
            (whisperStage2 (srcLen 26) (.netError "x")).2.2.2 ++
            ["combine.text", "combine.text.done", "reject.notEnoughText"])) ∧
    (minChars ≤ (jsTrim (combineText
        (whisperStage2 (srcLen 27) (.netError "x")).1 "")).length ∧
      POST2 (srcLen 27) "" (.netError "x") "u" =
        .success
          (extractRecipe
            (combineText (whisperStage2 (srcLen 27) (.netError "x")).1 "")
            (some "u") (whisperStage2 (srcLen 27) (.netError "x")).1.title)
          (whisperStage2 (srcLen 27) (.netError "x")).1
          (whisperStage2 (srcLen 27) (.netError "x")).2.1
          (whisperStage2 (srcLen 27) (.netError "x")).2.2.1
          (["parse.body", "validate.body", "env", "fetchSourceText",
            "fetchSourceText.done"] ++
            (whisperStage2 (srcLen 27) (.netError "x")).2.2.2 ++
            ["combine.text", "combine.text.done", "extractRecipe",
             "extractRecipe.done", "done"])) := by
  refine ⟨⟨by decide, ?_⟩, ⟨by decide, ?_⟩, ⟨by decide, ?_⟩, ⟨by decide, ?_⟩⟩
  · exact (C2_acceptance_gate (srcLen 236) "" (.error "boom") (.netError "x")
      "u").1 (by decide)
  · exact (C2_acceptance_gate (srcLen 237) "" (.error "boom") (.netError "x")
      "u").2.1 (by decide)
  · exact (C2_acceptance_gate (srcLen 26) "" (.error "boom") (.netError "x")
      "u").2.2.1 (by decide)
  · exact (C2_acceptance_gate (srcLen 27) "" (.error "boom") (.netError "x")
      "u").2.2.2 (by decide)

/-- C3 counterexample: the claim that the transcription-trigger threshold is
distinct from (typically smaller than) the final acceptance threshold fails
on the code.  In each handler iteration one single constant governs both
checks: in the first, the trigger on the native text flips exactly between
249 and 250 characters and so does the acceptance gate on the trimmed
combined corpus (`MIN_TEXT = 250` at both sites); in the second iteration
both flip at 40 (`minChars`). -/
theorem C3_distinct_thresholds_counterexample :
    MIN_TEXT = 250 ∧ minChars = 40 ∧
    triggered1 (srcLen 249) = true ∧ triggered1 (srcLen 250) = false ∧
    (POST1 (srcLen 236) "" (.error "e") "u").failed = true ∧
    (POST1 (srcLen 237) "" (.error "e") "u").failed = false ∧
    (jsTrim (combineText (srcLen 236) "")).length = 249 ∧
    (jsTrim (combineText (srcLen 237) "")).length = 250 ∧
    triggered2 (srcLen 39) = true ∧ triggered2 (srcLen 40) = false ∧
    (POST2 (srcLen 26) "" (.netError "x") "u").failed = true ∧
    (POST2 (srcLen 27) "" (.netError "x") "u").failed = false ∧
    (jsTrim (combineText (srcLen 26) "")).length = 39 ∧
    (jsTrim (combineText (srcLen 27) "")).length = 40 := by
  decide

/-- C3 as amended: each handler iteration uses one single minimum-text
threshold (`MIN_TEXT = 250` in the first, `minChars = 40` in the second):
transcription is attempted iff the resolved native text, trimmed, is shorter
than that threshold, and the very same threshold is the acceptance gate
applied to the trimmed combined corpus. -/
theorem C3_single_threshold_both_gates (source : SourceText)
    (pastedText : String) (tr : Except String TranscribeResult) (f : TrFetch)
    (url : String) :
    (triggered1 source = true ↔
      (jsTrim (source.text.getD "")).length < MIN_TEXT) ∧
    ((whisperStage1 source tr).2.2.2.head? = some "transcribe.start" ↔
      triggered1 source = true) ∧
    ((POST1 source pastedText tr url).failed = true ↔
      (jsTrim (combineText (whisperStage1 source tr).1 pastedText)).length <
        MIN_TEXT) ∧
    (triggered2 source = true ↔
      (jsTrim (source.text.getD "")).length < minChars) ∧
    ((whisperStage2 source f).2.2.2.head? = some "transcribe.fallback" ↔
      triggered2 source = true) ∧
    ((POST2 source pastedText f url).failed = true ↔
      (jsTrim (combineText (whisperStage2 source f).1 pastedText)).length <
        minChars) := by
  refine ⟨?_, ?_, ?_, ?_, ?_, ?_⟩
  · rw [triggered1]
    cases ht : source.text with
    | none => simp [jsTrim, trimChars, MIN_TEXT]
    | some t =>
      by_cases h : t = ""
      · subst h
        simp [jsTrim, trimChars, MIN_TEXT]
      · simp [h]
  · by_cases h : triggered1 source
    · cases tr with
      | ok r => by_cases hr : jsTrim r.text ≠ "" <;> simp [whisperStage1, h, hr]
      | error e => simp [whisperStage1, h]
    · simp [whisperStage1, h]
  · rw [POST1, afterCombine1]
    by_cases h : (jsTrim (combineText (whisperStage1 source tr).1
        pastedText)).length < MIN_TEXT <;>
      simp [h, Outcome.failed]
  · rw [triggered2]
    exact decide_eq_true_iff
  · by_cases h : triggered2 source
    · cases f with
      | netError e => simp [whisperStage2, h]
      | resp ok status body =>
        cases body with
        | invalid raw => simp [whisperStage2, h]
        | parsed tr? =>
          cases tr? with
          | none => by_cases hok : ok <;> simp [whisperStage2, h, hok]
          | some b =>
            cases hbt : b.text with
            | none => by_cases hok : ok <;> simp [whisperStage2, h, hok, hbt]
            | some t =>
              by_cases hok : ok
              · simp [whisperStage2, h, hok, hbt]
                split <;> simp
              · simp [whisperStage2, h, hok, hbt]
    · simp [whisperStage2, h]
  · rw [POST2, afterCombine2]
    by_cases h : (jsTrim (combineText (whisperStage2 source f).1
        pastedText)).length < minChars <;>
      simp [h, Outcome.failed]

/-- C4: a failure of the transcription fallback never fails the request at
that point.  In both handler iterations, whenever the transcription stage
did not apply any text (subprocess exception, HTTP or network error,
unparseable body, or empty returned text — every case with usedWhisper
still false), the native text resolved earlier is kept unchanged, the error
is recorded in the informational field and as the last pushed trace step,
and the pipeline proceeds to the combining stage. -/
theorem C4_transcription_failure_nonfatal (source : SourceText)
    (pastedText url : String) (tr : Except String TranscribeResult)
    (f : TrFetch) :
    (triggered1 source = true → (whisperStage1 source tr).2.1 = false →
      transcriptionNonfatal1 source pastedText url tr ∧
      ((whisperStage1 source tr).2.2.2.getLast? =
          some "transcribe.exception" ∨
        (whisperStage1 source tr).2.2.2.getLast? = some "transcribe.empty")) ∧
    (triggered2 source = true → (whisperStage2 source f).2.1 = false →
      transcriptionNonfatal2 source pastedText url f ∧
      ((whisperStage2 source f).2.2.2.getLast? =
          some "transcribe.exception" ∨
        (whisperStage2 source f).2.2.2.getLast? = some "transcribe.error" ∨
        (whisperStage2 source f).2.2.2.getLast? = some "transcribe.empty")) := by
  constructor
  · intro h hw
    cases tr with
    | error e =>
      refine ⟨⟨?_, ?_, ?_, ?_⟩, ?_⟩ <;> simp [whisperStage1, h, POST1]
    | ok r =>
      by_cases hr : jsTrim r.text = ""
      · refine ⟨⟨?_, ?_, ?_, ?_⟩, ?_⟩ <;> simp [whisperStage1, h, hr, POST1]
      · exfalso
        rw [whisperStage1, if_pos h] at hw
        simp [hr] at hw
  · intro h hw
    cases f with
    | netError e =>
      refine ⟨⟨?_, ?_, ?_, ?_⟩, ?_⟩ <;> simp [whisperStage2, h, POST2]
    | resp ok status body =>
      cases body with
      | invalid raw =>
        refine ⟨⟨?_, ?_, ?_, ?_⟩, ?_⟩ <;> simp [whisperStage2, h, POST2]
      | parsed tr? =>
        cases tr? with
        | none =>
          by_cases hok : ok <;>
            (refine ⟨⟨?_, ?_, ?_, ?_⟩, ?_⟩ <;> simp [whisperStage2, h, hok, POST2])
        | some b =>
          cases hbt : b.text with
          | none =>
            by_cases hok : ok <;>
              (refine ⟨⟨?_, ?_, ?_, ?_⟩, ?_⟩ <;>
                simp [whisperStage2, h, hok, hbt, POST2])
          | some t =>
            by_cases hok : ok
            · by_cases happ : b.ok = true ∧ ¬jsTrim t = ""
              · exfalso
                rw [whisperStage2, if_pos h] at hw
                simp [hok, hbt, happ] at hw
              · refine ⟨⟨?_, ?_, ?_, ?_⟩, ?_⟩ <;>
                  simp [whisperStage2, h, hok, hbt, happ, POST2]
            · refine ⟨⟨?_, ?_, ?_, ?_⟩, ?_⟩ <;>
                simp [whisperStage2, h, hok, hbt, POST2]

theorem C4_transcription_failure_nonfatal_witness :
    (triggered1 (srcLen 0) = true ∧
      (whisperStage1 (srcLen 0) (.error "boom")).2.1 = false ∧
      transcriptionNonfatal1 (srcLen 0) "" "u" (.error "boom")) ∧
    (triggered2 (srcLen 0) = true ∧
      (whisperStage2 (srcLen 0) (.resp true 200 (.invalid "oops"))).2.1 = false ∧
      transcriptionNonfatal2 (srcLen 0) "" "u"
        (.resp true 200 (.invalid "oops"))) := by
  refine ⟨⟨by decide, by decide, ?_⟩, ⟨by decide, by decide, ?_⟩⟩
  · exact ((C4_transcription_failure_nonfatal (srcLen 0) "" "u" (.error "boom")
      (.resp true 200 (.invalid "oops"))).1 (by decide) (by decide)).1
  · exact ((C4_transcription_failure_nonfatal (srcLen 0) "" "u" (.error "boom")
      (.resp true 200 (.invalid "oops"))).2 (by decide) (by decide)).1

/-- C10: when the transcription fallback returns text that is non-empty
after trimming, both handler iterations assign that text to the source text
field, entirely replacing the previously resolved native text (title and
author untouched); the combined corpus is then built from the new text only,
so the replaced native text no longer contributes to it. -/
theorem C10_transcript_replaces_native_text (source : SourceText)
    (r : TranscribeResult) (b : TrBody) (t : String) (status : Nat)
    (pastedText : String) :
    (triggered1 source = true → jsTrim r.text ≠ "" →
      whisperStage1 source (.ok r) =
        ({ source with text := some r.text }, true, none,
         ["transcribe.start", "transcribe.done"])) ∧
    (triggered2 source = true → b.ok = true → b.text = some t →
      jsTrim t ≠ "" →
      whisperStage2 source (.resp true status (.parsed (some b))) =
        ({ source with text := some t }, true, none,
         ["transcribe.fallback", "transcribe.fetch.done",
          "transcribe.success"])) ∧
    (jsTrim r.text ≠ "" →
      combineText { source with text := some r.text } pastedText =
        joinBlankSep
          (([optPart ("TITLE: ") source.title,
             optPart ("AUTHOR: ") source.author,
             "SOURCE TEXT:\n" ++ r.text,
             (if jsTrim pastedText = "" then ""
              else "PASTED TEXT:\n" ++ jsTrim pastedText)]).filter
            (fun s => s ≠ ""))) := by
  refine ⟨fun h hr => ?_, fun h hok hbt ht => ?_, fun hr => ?_⟩
  · simp [whisperStage1, h, hr]
  · simp [whisperStage2, h, hok, hbt, ht]
  · have hne : r.text ≠ "" := by
      intro he
      exact hr (by rw [he]; rfl)
    simp [combineText, optPart, hne]

theorem C10_transcript_replaces_native_text_witness :
    (triggered1 ⟨.youtube, some "T", some "A", some "old"⟩ = true ∧
      jsTrim "new text" ≠ "" ∧
      whisperStage1 ⟨.youtube, some "T", some "A", some "old"⟩
          (.ok ⟨none, "new text"⟩) =
        (⟨.youtube, some "T", some "A", some "new text"⟩, true, none,
         ["transcribe.start", "transcribe.done"])) ∧
    (triggered2 ⟨.youtube, some "T", some "A", some "old"⟩ = true ∧
      whisperStage2 ⟨.youtube, some "T", some "A", some "old"⟩
          (.resp true 200 (.parsed (some ⟨true, some "new text", none⟩))) =
        (⟨.youtube, some "T", some "A", some "new text"⟩, true, none,
         ["transcribe.fallback", "transcribe.fetch.done",
          "transcribe.success"])) := by
  refine ⟨⟨by decide, by decide, ?_⟩, ⟨by decide, ?_⟩⟩
  · exact (C10_transcript_replaces_native_text
      ⟨.youtube, some "T", some "A", some "old"⟩ ⟨none, "new text"⟩
      ⟨true, some "new text", none⟩ "new text" 200 "").1 (by decide) (by decide)
  · exact (C10_transcript_replaces_native_text
      ⟨.youtube, some "T", some "A", some "old"⟩ ⟨none, "new text"⟩
      ⟨true, some "new text", none⟩ "new text" 200 "").2.1 (by decide)
      (by decide) (by decide) (by decide)

/-- C7 counterexample: on the example corpus the ingredient list is exactly
["2 tbsp butter to a hot pan"].  No entry containing "1 lb shrimp" (or even
the word "shrimp") survives, contradicting the claim that the ingredients
include normalized forms of both "2 tbsp butter" and "1 lb shrimp": the
greedy quantity match starting at "1" extends through "and cook for 3
minutes" and is therefore discarded whole by the time-word filter. -/
theorem C7_example_ingredients_counterexample :
    extractIngredientCandidates exampleCorpus = ["2 tbsp butter to a hot pan"] ∧
    (extractIngredientCandidates exampleCorpus).all
      (fun s => !containsSub (chars ("shrimp")) s.data) = true ∧
    ((extractIngredientCandidates exampleCorpus).contains "1 lb shrimp") =
      false ∧
    ((extractIngredientCandidates exampleCorpus).contains
      (clean "1 lb shrimp")) = false := by
  refine ⟨by decide, by decide, by decide, by decide⟩

/-- C7 as amended: every quantity-pattern match containing a time or
temperature word is excluded from the pattern-derived candidates; on the
example corpus the two greedy matches are "2 tbsp butter to a hot pan" and
"1 lb shrimp and cook for 3 minutes", the latter is excluded whole by the
time-word filter, and the resulting ingredient list is exactly
["2 tbsp butter to a hot pan"] — containing the butter quantity (extended to
the sentence boundary), no entry for the shrimp quantity, and no entry
"cook for 3 minutes". -/
theorem C7_time_word_filter (text : String) (h : String) :
    (h ∈ patternHits text → containsTimeWord h.data = true →
      h ∉ filteredHits text) ∧
    patternHits exampleCorpus =
      ["2 tbsp butter to a hot pan", "1 lb shrimp and cook for 3 minutes"] ∧
    filteredHits exampleCorpus = ["2 tbsp butter to a hot pan"] ∧
    extractIngredientCandidates exampleCorpus =
      ["2 tbsp butter to a hot pan"] := by
  refine ⟨fun hmem htime hfil => ?_, by decide, by decide, by decide⟩
  rw [filteredHits] at hfil
  have := List.of_mem_filter hfil
  simp [htime] at this

theorem C7_time_word_filter_witness :
    ("1 lb shrimp and cook for 3 minutes" ∈ patternHits exampleCorpus ∧
      containsTimeWord ("1 lb shrimp and cook for 3 minutes").data = true) ∧
    "1 lb shrimp and cook for 3 minutes" ∉ filteredHits exampleCorpus := by
  refine ⟨⟨by decide, by decide⟩, ?_⟩
  exact (C7_time_word_filter exampleCorpus
    "1 lb shrimp and cook for 3 minutes").1 (by decide) (by decide)

/-- C8: the extracted recipe title follows the precedence: a non-empty
caller-supplied sourceTitle hint wins; otherwise the text captured by a
`TITLE:` marker, cleaned and truncated to 80 characters; otherwise the first
segmented sentence truncated to 80 characters with any literal
"SOURCE TEXT:" marker stripped; otherwise the fallback title "Recipe".
(An empty-string hint is falsy in the source and falls through to
`guessTitle`.) -/
theorem C8_title_precedence (fullText : String) (url : Option String)
    (t : String) (cap : List Char) (first : String) (rest : List String) :
    ((extractRecipe fullText url (some t)).title =
      if t = "" then guessTitle fullText else t) ∧
    ((extractRecipe fullText url none).title = guessTitle fullText) ∧
    (titleFind fullText.data = some cap →
      guessTitle fullText = (clean (String.mk cap)).take 80) ∧
    (titleFind fullText.data = none →
      splitSentences fullText = first :: rest →
      guessTitle fullText =
        stripSourceTextMark
          (if first.take 80 = "" then "Recipe" else first.take 80)) ∧
    (titleFind fullText.data = none → splitSentences fullText = [] →
      guessTitle fullText = "Recipe") := by
  refine ⟨?_, ?_, fun hf => ?_, fun hf hs => ?_, fun hf hs => ?_⟩
  · simp [extractRecipe]
  · simp [extractRecipe]
  · simp [guessTitle, hf]
  · simp [guessTitle, hf, hs]
  · simp [guessTitle, hf, hs]
    decide

theorem C8_title_precedence_witness :
    (titleFind exampleCorpus.data = some (chars ("Garlic Butter Shrimp")) ∧
      guessTitle exampleCorpus =
        (clean (String.mk (chars ("Garlic Butter Shrimp")))).take 80 ∧
      guessTitle exampleCorpus = "Garlic Butter Shrimp") ∧
    (titleFind ("Mix the dough. Bake it.").data = none ∧
      splitSentences ("Mix the dough. Bake it.") =
        "Mix the dough." :: ["Bake it."] ∧
      guessTitle ("Mix the dough. Bake it.") =
        stripSourceTextMark
          (if ("Mix the dough.").take 80 = "" then "Recipe"
            else ("Mix the dough.").take 80)) ∧
    (titleFind ("").data = none ∧ splitSentences "" = [] ∧
      guessTitle "" = "Recipe") ∧
    (extractRecipe exampleCorpus none (some "Hint")).title = "Hint" := by
  refine ⟨⟨by decide, ?_, by decide⟩, ⟨by decide, by decide, ?_⟩,
    ⟨by decide, by decide, ?_⟩, by decide⟩
  · exact (C8_title_precedence exampleCorpus none ""
      (chars ("Garlic Butter Shrimp")) "" []).2.2.1 (by decide)
  · exact (C8_title_precedence ("Mix the dough. Bake it.") none "" []
      "Mix the dough." ["Bake it."]).2.2.2.1 (by decide) (by decide)
  · exact (C8_title_precedence ("") none "" [] "" []).2.2.2.2 (by decide)
      (by decide)

/-- C9: for every outcome of the external calls (spawn error, audio-download
failure, transcription-engine failure, unparseable engine output, or success),
`transcribeUrl` leaves the temporary working directory removed when it
returns or throws, in both source iterations. -/
theorem C9_transcribe_tmpdir_removed_on_every_path
    (cmdDl cmdWhisper : String) (ext : ExtCall) :
    (transcribeUrlRun cmdDl cmdWhisper ext).2 = false ∧
    (transcribeUrlRunV2 cmdDl cmdWhisper ext).2 = false := by
  cases ext <;> exact ⟨rfl, rfl⟩

/-! Lemmas on first-occurrence deduplication and `uniq`. -/

theorem mem_of_mem_dedupFirstAux (l : List String) :
    ∀ (seen : List String) (x : String), x ∈ dedupFirstAux seen l →
      x ∈ l ∧ x ∉ seen := by
  induction l with
  | nil => intro seen x h; simp [dedupFirstAux] at h
  | cons a as ih =>
    intro seen x h
    rw [dedupFirstAux] at h
    by_cases hc : seen.contains a
    · rw [if_pos hc] at h
      have h2 := ih seen x h
      exact ⟨List.mem_cons_of_mem _ h2.1, h2.2⟩
    · rw [if_neg hc] at h
      rcases List.mem_cons.mp h with rfl | h2
      · refine ⟨List.mem_cons_self _ _, fun hx => hc ?_⟩
        simpa using hx
      · have h3 := ih (a :: seen) x h2
        exact ⟨List.mem_cons_of_mem _ h3.1,
          fun hx => h3.2 (List.mem_cons_of_mem _ hx)⟩

theorem dedupFirstAux_nodup (l : List String) :
    ∀ seen : List String, (dedupFirstAux seen l).Nodup := by
  induction l with
  | nil => intro seen; simp [dedupFirstAux]
  | cons a as ih =>
    intro seen
    rw [dedupFirstAux]
    by_cases hc : seen.contains a
    · rw [if_pos hc]; exact ih seen
    · rw [if_neg hc]
      refine List.nodup_cons.mpr ⟨fun hmem => ?_, ih (a :: seen)⟩
      exact (mem_of_mem_dedupFirstAux as (a :: seen) a hmem).2
        (List.mem_cons_self _ _)

theorem dedupFirstAux_length (l : List String) :
    ∀ seen : List String, (dedupFirstAux seen l).length ≤ l.length := by
  induction l with
  | nil => intro seen; simp [dedupFirstAux]
  | cons a as ih =>
    intro seen
    rw [dedupFirstAux]
    by_cases hc : seen.contains a
    · rw [if_pos hc]
      exact Nat.le_succ_of_le (ih seen)
    · rw [if_neg hc]
      simpa using ih (a :: seen)

theorem uniq_nodup (arr : List String) : (uniq arr).Nodup :=
  dedupFirstAux_nodup _ []

theorem mem_uniq (arr : List String) (x : String) (h : x ∈ uniq arr) :
    x ≠ "" ∧ ∃ y ∈ arr, x = clean y := by
  have h1 := (mem_of_mem_dedupFirstAux _ [] x h).1
  have h2 := List.mem_filter.mp h1
  refine ⟨by simpa using h2.2, ?_⟩
  rcases List.mem_map.mp h2.1 with ⟨y, hy, hxy⟩
  exact ⟨y, hy, hxy.symm⟩

theorem uniq_length_le (arr : List String) : (uniq arr).length ≤ arr.length :=
  le_trans (dedupFirstAux_length _ [])
    (le_trans (List.length_filter_le _ _) (by simp))

/-! Shape lemmas for `clean`: its output has single spaces as its only
whitespace, no two adjacent whitespace characters, and no whitespace at
either end; `clean` is therefore idempotent. -/

theorem collapseWsAux_ws_space (l : List Char) :
    ∀ (b : Bool), ∀ c ∈ collapseWsAux b l, isWs c = true → c = ' ' := by
  induction l with
  | nil => intro b c hc hw; simp [collapseWsAux] at hc
  | cons a as ih =>
    intro b c hc hw
    rw [collapseWsAux] at hc
    cases ha : isWs a with
    | true =>
      rw [ha] at hc
      cases b with
      | true =>
        rw [if_pos rfl, if_pos rfl] at hc
        exact ih true c hc hw
      | false =>
        rw [if_pos rfl, if_neg Bool.false_ne_true] at hc
        rcases List.mem_cons.mp hc with rfl | hc2
        · rfl
        · exact ih true c hc2 hw
    | false =>
      rw [ha, if_neg Bool.false_ne_true] at hc
      rcases List.mem_cons.mp hc with rfl | hc2
      · rw [ha] at hw
        exact absurd hw Bool.false_ne_true
      · exact ih false c hc2 hw

theorem collapseWsAux_true_head (l : List Char) :
    ∀ c, (collapseWsAux true l).head? = some c → isWs c = false := by
  induction l with
  | nil => intro c hc; simp [collapseWsAux] at hc
  | cons a as ih =>
    intro c hc
    rw [collapseWsAux] at hc
    cases ha : isWs a with
    | true =>
      rw [ha, if_pos rfl, if_pos rfl] at hc
      exact ih c hc
    | false =>
      rw [ha, if_neg Bool.false_ne_true] at hc
      simp only [List.head?_cons, Option.some_inj] at hc
      subst hc
      exact ha

theorem collapseWsAux_chain (l : List Char) :
    ∀ (b : Bool), List.Chain' (fun x y => ¬(isWs x = true ∧ isWs y = true))
      (collapseWsAux b l) := by
  induction l with
  | nil => intro b; simp [collapseWsAux]
  | cons a as ih =>
    intro b
    rw [collapseWsAux]
    cases ha : isWs a with
    | true =>
      rw [if_pos rfl]
      cases b with
      | true =>
        rw [if_pos rfl]
        exact ih true
      | false =>
        rw [if_neg Bool.false_ne_true]
        refine List.chain'_cons'.mpr ⟨fun y hy => ?_, ih true⟩
        intro hpair
        rw [collapseWsAux_true_head as y hy] at hpair
        exact Bool.false_ne_true hpair.2
    | false =>
      rw [if_neg Bool.false_ne_true]
      refine List.chain'_cons'.mpr ⟨fun y hy => ?_, ih false⟩
      intro hpair
      rw [ha] at hpair
      exact Bool.false_ne_true hpair.1

theorem head_dropWhile_isWs (l : List Char) :
    ∀ c, ((l.dropWhile isWs).head? = some c) → isWs c = false := by
  induction l with
  | nil => intro c hc; simp at hc
  | cons a as ih =>
    intro c hc
    rw [List.dropWhile_cons] at hc
    cases ha : isWs a with
    | true =>
      rw [ha, if_pos rfl] at hc
      exact ih c hc
    | false =>
      rw [ha, if_neg Bool.false_ne_true] at hc
      simp only [List.head?_cons, Option.some_inj] at hc
      subst hc
      exact ha

theorem reversePre {l₁ l₂ : List Char} (h : l₁ <:+ l₂) :
    l₁.reverse <+: l₂.reverse := by
  obtain ⟨t, rfl⟩ := h
  exact ⟨t.reverse, by rw [List.reverse_append]⟩

theorem prefixKeepsHead {l₁ l₂ : List Char} (h : l₁ <+: l₂) (x : Char)
    (hx : l₁.head? = some x) : l₂.head? = some x := by
  obtain ⟨t, rfl⟩ := h
  cases l₁ with
  | nil => simp at hx
  | cons a as => simpa using hx

theorem getLast?_of_suffix {l₁ l₂ : List Char} (h : l₁ <:+ l₂) (x : Char)
    (hx : l₁.getLast? = some x) : l₂.getLast? = some x := by
  rw [← List.head?_reverse] at hx ⊢
  exact prefixKeepsHead (reversePre h) x hx

theorem trimChars_head (l : List Char) (c : Char)
    (hc : (trimChars l).head? = some c) : isWs c = false := by
  rw [trimChars, List.head?_reverse] at hc
  have h2 := getLast?_of_suffix (List.dropWhile_suffix isWs) c hc
  rw [List.getLast?_reverse] at h2
  exact head_dropWhile_isWs l c h2

theorem trimChars_last (l : List Char) (c : Char)
    (hc : (trimChars l).getLast? = some c) : isWs c = false := by
  rw [trimChars, List.getLast?_reverse] at hc
  exact head_dropWhile_isWs (l.dropWhile isWs).reverse c hc

theorem trimChars_infix (l : List Char) : trimChars l <:+: l := by
  rw [trimChars]
  have h1 : l.dropWhile isWs <:+ l := List.dropWhile_suffix isWs
  have h2 : (l.dropWhile isWs).reverse.dropWhile isWs <:+
      (l.dropWhile isWs).reverse := List.dropWhile_suffix isWs
  have h3 := reversePre h2
  rw [List.reverse_reverse] at h3
  exact h3.isInfix.trans h1.isInfix

theorem dropWhile_eq_self_of_head (l : List Char) (p : Char → Bool)
    (h : ∀ c, l.head? = some c → p c = false) : l.dropWhile p = l := by
  cases l with
  | nil => rfl
  | cons a as =>
    rw [List.dropWhile_cons, if_neg]
    rw [h a rfl]
    exact Bool.false_ne_true

theorem collapseWsAux_id (l : List Char)
    (hspace : ∀ c ∈ l, isWs c = true → c = ' ')
    (hchain : List.Chain' (fun x y => ¬(isWs x = true ∧ isWs y = true)) l) :
    collapseWsAux false l = l ∧
    ((∀ c, l.head? = some c → isWs c = false) → collapseWsAux true l = l) := by
  induction l with
  | nil => exact ⟨rfl, fun _ => rfl⟩
  | cons a as ih =>
    have hdec := List.chain'_cons'.mp hchain
    have ih2 := ih (fun c hc hw => hspace c (List.mem_cons_of_mem _ hc) hw)
      hdec.2
    constructor
    · rw [collapseWsAux]
      cases ha : isWs a with
      | true =>
        rw [if_pos rfl, if_neg Bool.false_ne_true]
        have hhead : ∀ c, as.head? = some c → isWs c = false := by
          intro c hc
          have hp := hdec.1 c hc
          cases hcw : isWs c with
          | true => exact absurd ⟨ha, hcw⟩ hp
          | false => rfl
        rw [ih2.2 hhead, hspace a (List.mem_cons_self _ _) ha]
      | false =>
        rw [if_neg Bool.false_ne_true, ih2.1]
    · intro hhead
      rw [collapseWsAux]
      rw [if_neg (by rw [hhead a rfl]; exact Bool.false_ne_true), ih2.1]

theorem trimChars_id (l : List Char)
    (hhead : ∀ c, l.head? = some c → isWs c = false)
    (hlast : ∀ c, l.getLast? = some c → isWs c = false) :
    trimChars l = l := by
  rw [trimChars, dropWhile_eq_self_of_head l isWs hhead,
    dropWhile_eq_self_of_head l.reverse isWs
      (fun c hc => hlast c (by rwa [List.head?_reverse] at hc)),
    List.reverse_reverse]

theorem clean_data_facts (s : String) :
    (∀ c ∈ (clean s).data, isWs c = true → c = ' ') ∧
    List.Chain' (fun x y => ¬(isWs x = true ∧ isWs y = true)) (clean s).data ∧
    (∀ c, (clean s).data.head? = some c → isWs c = false) ∧
    (∀ c, (clean s).data.getLast? = some c → isWs c = false) := by
  have hinf : trimChars (collapseWs s.data) <:+: collapseWs s.data :=
    trimChars_infix _
  refine ⟨?_, ?_, ?_, ?_⟩
  · intro c hc hw
    exact collapseWsAux_ws_space _ false c (hinf.sublist.mem hc) hw
  · exact List.Chain'.infix (collapseWsAux_chain _ false) hinf
  · exact fun c hc => trimChars_head _ c hc
  · exact fun c hc => trimChars_last _ c hc

theorem clean_idem (s : String) : clean (clean s) = clean s := by
  obtain ⟨hspace, hchain, hhead, hlast⟩ := clean_data_facts s
  show String.mk (trimChars (collapseWs (clean s).data)) = clean s
  rw [show collapseWs (clean s).data = (clean s).data from
    (collapseWsAux_id _ hspace hchain).1]
  rw [trimChars_id _ hhead hlast]

/-! Lemmas on ordinal step numbering. -/

theorem numberSteps_get? (l : List String) :
    ∀ (n i : Nat), (numberSteps n l).get? i =
      (l.get? i).map (fun s => Nat.repr (n + i) ++ ". " ++ s) := by
  induction l with
  | nil => intro n i; simp [numberSteps]
  | cons s rest ih =>
    intro n i
    cases i with
    | zero => simp [numberSteps]
    | succ j =>
      rw [numberSteps]
      have hs : n + 1 + j = n + (j + 1) := by omega
      simp only [List.get?_cons_succ, ih (n + 1) j, hs]

theorem mem_numberSteps (l : List String) :
    ∀ (n : Nat) (x : String), x ∈ numberSteps n l →
      ∃ i s, l.get? i = some s ∧ i < l.length ∧
        x = Nat.repr (n + i) ++ ". " ++ s := by
  induction l with
  | nil => intro n x h; simp [numberSteps] at h
  | cons s rest ih =>
    intro n x h
    rw [numberSteps] at h
    rcases List.mem_cons.mp h with rfl | h2
    · exact ⟨0, s, rfl, by simp, by simp⟩
    · obtain ⟨i, t, hget, hlt, hx⟩ := ih (n + 1) x h2
      refine ⟨i + 1, t, by simpa using hget, by simpa using hlt, ?_⟩
      rw [hx]
      have hs : n + 1 + i = n + (i + 1) := by omega
      rw [hs]

theorem append_dot_inj : ∀ (a b x y : List Char),
    (∀ c ∈ a, c ≠ '.') → (∀ c ∈ b, c ≠ '.') →
    a ++ '.' :: x = b ++ '.' :: y → a = b ∧ x = y := by
  intro a
  induction a with
  | nil =>
    intro b x y _ hb h
    cases b with
    | nil => simpa using h
    | cons b0 bs =>
      simp only [List.nil_append, List.cons_append, List.cons.injEq] at h
      exact absurd h.1.symm (hb b0 (List.mem_cons_self _ _))
  | cons a0 as ih =>
    intro b x y ha hb h
    cases b with
    | nil =>
      simp only [List.nil_append, List.cons_append, List.cons.injEq] at h
      exact absurd h.1 (ha a0 (List.mem_cons_self _ _))
    | cons b0 bs =>
      simp only [List.cons_append, List.cons.injEq] at h
      obtain ⟨h1, h2⟩ := h
      obtain ⟨hab, hxy⟩ := ih bs x y
        (fun c hc => ha c (List.mem_cons_of_mem _ hc))
        (fun c hc => hb c (List.mem_cons_of_mem _ hc)) h2
      exact ⟨by rw [h1, hab], hxy⟩

theorem repr_no_dot_le18 : ∀ i : Fin 19, ∀ c ∈ (Nat.repr i.val).data,
    c ≠ '.' := by
  decide

theorem repr_no_ws_le18 : ∀ i : Fin 19, ∀ c ∈ (Nat.repr i.val).data,
    isWs c = false := by
  decide

theorem repr_ne_nil_le18 : ∀ i : Fin 19, (Nat.repr i.val).data ≠ [] := by
  decide

theorem repr_inj_le18 : ∀ i j : Fin 19, Nat.repr i.val = Nat.repr j.val →
    i = j := by
  decide

theorem numbered_inj (m k : Nat) (hm : m ≤ 18) (hk : k ≤ 18) (s t : String)
    (h : Nat.repr m ++ ". " ++ s = Nat.repr k ++ ". " ++ t) :
    m = k ∧ s = t := by
  have hd := congrArg String.data h
  rw [String.data_append, String.data_append, String.data_append,
    String.data_append, List.append_assoc, List.append_assoc] at hd
  have hsplit := append_dot_inj (Nat.repr m).data (Nat.repr k).data
    (' ' :: s.data) (' ' :: t.data)
    (repr_no_dot_le18 ⟨m, by omega⟩) (repr_no_dot_le18 ⟨k, by omega⟩)
    (by simpa using hd)
  obtain ⟨h1, h2⟩ := hsplit
  have hmk := repr_inj_le18 ⟨m, by omega⟩ ⟨k, by omega⟩ (String.ext h1)
  have hmk2 : m = k := congrArg Fin.val hmk
  simp only [List.cons.injEq, true_and] at h2
  exact ⟨hmk2, String.ext h2⟩

theorem numberSteps_nodup (l : List String) :
    ∀ n : Nat, 1 ≤ n → n + l.length ≤ 19 → (numberSteps n l).Nodup := by
  induction l with
  | nil => intro n _ _; simp [numberSteps]
  | cons s rest ih =>
    intro n h1 hb
    rw [numberSteps]
    refine List.nodup_cons.mpr ⟨fun hmem => ?_,
      ih (n + 1) (by omega) (by simp at hb; omega)⟩
    obtain ⟨i, t, hget, hlt, hx⟩ := mem_numberSteps rest (n + 1) _ hmem
    have hlen : rest.length + 1 ≤ 19 - n := by simp at hb; omega
    have hinj := numbered_inj n (n + 1 + i) (by omega) (by omega) s t hx
    omega

theorem append_ne_empty_right (s t : String) (h : t ≠ "") : s ++ t ≠ "" := by
  intro he
  have hl := congrArg String.length he
  rw [String.length_append] at hl
  have h0 : String.length "" = 0 := rfl
  rw [h0] at hl
  have ht : t.length = 0 := by omega
  exact h ((length_zero_iff_empty t).mp ht)

theorem chain_of_no_ws (l : List Char) (h : ∀ c ∈ l, isWs c = false) :
    List.Chain' (fun x y => ¬(isWs x = true ∧ isWs y = true)) l := by
  induction l with
  | nil => simp
  | cons a as ih =>
    refine List.chain'_cons'.mpr
      ⟨fun y hy => ?_, ih (fun c hc => h c (List.mem_cons_of_mem _ hc))⟩
    intro hp
    rw [h a (List.mem_cons_self _ _)] at hp
    exact Bool.false_ne_true hp.1

theorem clean_numbered (n : Nat) (h1 : 1 ≤ n) (h18 : n ≤ 18) (y : String)
    (hne : clean y ≠ "") :
    clean (Nat.repr n ++ ". " ++ clean y) = Nat.repr n ++ ". " ++ clean y := by
  obtain ⟨hspace, hchain, hhead, hlast⟩ := clean_data_facts y
  have hEdata : (Nat.repr n ++ ". " ++ clean y).data =
      (Nat.repr n).data ++ '.' :: ' ' :: (clean y).data := by
    rw [String.data_append, String.data_append, List.append_assoc]
    rfl
  have hCne : (clean y).data ≠ [] := by
    intro hc
    exact hne (String.ext (by rw [hc]))
  have hws : ∀ c ∈ (Nat.repr n ++ ". " ++ clean y).data,
      isWs c = true → c = ' ' := by
    intro c hc hw
    rw [hEdata] at hc
    rcases List.mem_append.mp hc with hc1 | hc2
    · rw [repr_no_ws_le18 ⟨n, by omega⟩ c hc1] at hw
      exact absurd hw Bool.false_ne_true
    · rcases List.mem_cons.mp hc2 with rfl | hc3
      · have hdot : isWs '.' = false := by decide
        rw [hdot] at hw
        exact absurd hw Bool.false_ne_true
      · rcases List.mem_cons.mp hc3 with rfl | hc4
        · rfl
        · exact hspace c hc4 hw
  have hch : List.Chain' (fun x y => ¬(isWs x = true ∧ isWs y = true))
      (Nat.repr n ++ ". " ++ clean y).data := by
    rw [hEdata, List.chain'_append]
    refine ⟨chain_of_no_ws _ (repr_no_ws_le18 ⟨n, by omega⟩), ?_, ?_⟩
    · refine List.chain'_cons'.mpr ⟨fun y2 hy2 => ?_,
        List.chain'_cons'.mpr ⟨fun y2 hy2 => ?_, hchain⟩⟩
      · simp only [List.head?_cons, Option.mem_def, Option.some_inj] at hy2
        subst hy2
        intro hp
        have hdot : isWs '.' = false := by decide
        rw [hdot] at hp
        exact Bool.false_ne_true hp.1
      · intro hp
        rw [hhead y2 hy2] at hp
        exact Bool.false_ne_true hp.2
    · intro x hx y2 hy2
      simp only [List.head?_cons, Option.mem_def, Option.some_inj] at hy2
      subst hy2
      intro hp
      have hdot : isWs '.' = false := by decide
      rw [hdot] at hp
      exact Bool.false_ne_true hp.2
  have hEhead : ∀ c, (Nat.repr n ++ ". " ++ clean y).data.head? = some c →
      isWs c = false := by
    intro c hc
    rw [hEdata] at hc
    have hd := repr_ne_nil_le18 ⟨n, by omega⟩
    cases hd2 : (Nat.repr n).data with
    | nil => exact absurd hd2 hd
    | cons c0 cs =>
      rw [hd2] at hc
      simp only [List.cons_append, List.head?_cons, Option.some_inj] at hc
      subst hc
      exact repr_no_ws_le18 ⟨n, by omega⟩ _ (by rw [hd2]; exact List.mem_cons_self _ _)
  have hElast : ∀ c, (Nat.repr n ++ ". " ++ clean y).data.getLast? = some c →
      isWs c = false := by
    intro c hc
    rw [hEdata, List.getLast?_append_of_ne_nil _ (by simp)] at hc
    rw [show ('.' :: ' ' :: (clean y).data) = ['.', ' '] ++ (clean y).data
      from rfl, List.getLast?_append_of_ne_nil _ hCne] at hc
    exact hlast c hc
  show String.mk (trimChars (collapseWs (Nat.repr n ++ ". " ++ clean y).data)) =
    Nat.repr n ++ ". " ++ clean y
  rw [show collapseWs (Nat.repr n ++ ". " ++ clean y).data =
      (Nat.repr n ++ ". " ++ clean y).data from (collapseWsAux_id _ hws hch).1,
    trimChars_id _ hEhead hElast]

theorem rawSteps_length_le (text : String) : (rawSteps text).length ≤ 18 :=
  le_trans (uniq_length_le _) (List.length_take_le _ _)

theorem mem_rawSteps (text : String) (s : String) (h : s ∈ rawSteps text) :
    s ≠ "" ∧ ∃ y, s = clean y := by
  have h2 := mem_uniq _ _ h
  exact ⟨h2.1, by rcases h2.2 with ⟨y, _, hy⟩; exact ⟨y, hy⟩⟩

/-- C1: for every input corpus, the recipe returned by extractRecipe has
ingredient and step lists with no empty entries and no duplicates after
normalization (whitespace collapsed and trimmed, i.e. `clean`), and the
steps are the raw deduplicated steps prefixed with strictly increasing
1-based ordinals followed by a period: entry i is
`(i+1) ++ ". " ++ rawSteps[i]`. -/
theorem C1_extractRecipe_invariants (fullText : String)
    (sourceUrl sourceTitle : Option String) :
    (extractRecipe fullText sourceUrl sourceTitle).ingredients.Nodup ∧
    ((extractRecipe fullText sourceUrl sourceTitle).ingredients.map
      clean).Nodup ∧
    (∀ s ∈ (extractRecipe fullText sourceUrl sourceTitle).ingredients,
      s ≠ "") ∧
    (extractRecipe fullText sourceUrl sourceTitle).steps =
      numberSteps 1 (rawSteps fullText) ∧
    (rawSteps fullText).Nodup ∧
    ((rawSteps fullText).map clean).Nodup ∧
    (∀ s ∈ rawSteps fullText, s ≠ "") ∧
    (∀ i : Nat, (extractRecipe fullText sourceUrl sourceTitle).steps.get? i =
      ((rawSteps fullText).get? i).map
        (fun s => Nat.repr (i + 1) ++ ". " ++ s)) ∧
    (extractRecipe fullText sourceUrl sourceTitle).steps.Nodup ∧
    ((extractRecipe fullText sourceUrl sourceTitle).steps.map clean).Nodup ∧
    (∀ s ∈ (extractRecipe fullText sourceUrl sourceTitle).steps, s ≠ "") := by
  have hing : (extractRecipe fullText sourceUrl sourceTitle).ingredients =
      extractIngredientCandidates fullText := rfl
  have hstp : (extractRecipe fullText sourceUrl sourceTitle).steps =
      numberSteps 1 (rawSteps fullText) := rfl
  have hingsub :
      List.Sublist (extractIngredientCandidates fullText)
        (uniq (fromSection fullText ++ filteredHits fullText)) :=
    List.take_sublist _ _
  have hingmem : ∀ s ∈ extractIngredientCandidates fullText,
      s ∈ uniq (fromSection fullText ++ filteredHits fullText) :=
    fun s hs => hingsub.mem hs
  have hingfix : ∀ s ∈ extractIngredientCandidates fullText, clean s = s := by
    intro s hs
    rcases (mem_uniq _ _ (hingmem s hs)).2 with ⟨y, _, rfl⟩
    exact clean_idem y
  have hingnd : (extractIngredientCandidates fullText).Nodup :=
    hingsub.nodup (uniq_nodup _)
  have hrawfix : ∀ s ∈ rawSteps fullText, clean s = s := by
    intro s hs
    rcases (mem_rawSteps fullText s hs).2 with ⟨y, rfl⟩
    exact clean_idem y
  have hrawnd : (rawSteps fullText).Nodup := uniq_nodup _
  have hstepsnd : (numberSteps 1 (rawSteps fullText)).Nodup :=
    numberSteps_nodup _ 1 (le_refl 1) (by have := rawSteps_length_le fullText; omega)
  have hstepchar : ∀ x ∈ numberSteps 1 (rawSteps fullText),
      x ≠ "" ∧ clean x = x := by
    intro x hx
    obtain ⟨i, s, hget, hlt, hxe⟩ := mem_numberSteps _ 1 x hx
    have hsmem : s ∈ rawSteps fullText := List.get?_mem hget
    obtain ⟨hsne, y, hsy⟩ := mem_rawSteps fullText s hsmem
    constructor
    · rw [hxe]
      exact append_ne_empty_left _ _ (append_ne_empty_right _ _ (by decide))
    · rw [hxe, hsy]
      exact clean_numbered (1 + i) (by omega)
        (by have := rawSteps_length_le fullText; omega) y (by rw [← hsy]; exact hsne)
  refine ⟨?_, ?_, ?_, hstp, hrawnd, ?_, ?_, ?_, ?_, ?_, ?_⟩
  · rw [hing]; exact hingnd
  · rw [hing, List.map_congr_left hingfix]
    simpa using hingnd
  · intro s hs
    rw [hing] at hs
    exact (mem_uniq _ _ (hingmem s hs)).1
  · rw [List.map_congr_left hrawfix]
    simpa using hrawnd
  · exact fun s hs => (mem_rawSteps fullText s hs).1
  · intro i
    rw [hstp, numberSteps_get? _ 1 i]
    have hadd : 1 + i = i + 1 := by omega
    rw [hadd]
  · rw [hstp]; exact hstepsnd
  · rw [hstp, List.map_congr_left (fun x hx => (hstepchar x hx).2)]
    simpa using hstepsnd
  · intro s hs
    rw [hstp] at hs
    exact (hstepchar s hs).1

end RecipeRipper
